import Mathlib

/-!
Verification of the openclaw-voice pipeline against its specification.

The development shallowly embeds the orchestration logic of the repository:
the transcription gate (`src/modules/transcription.js`), the per-speaker
voice-activity segmenter (`src/modules/voice.js`), the playback
queue/radio scheduler (`src/modules/music.js` and the revision carrying
radio mode), the stop/clear command handlers (commands module), and the
TTS entry point (`src/modules/tts.js`).  Strings are lists of Unicode
code points, time is a natural number of milliseconds, and every external
collaborator (speech recognizer, AI agent, media resolver, synthesizer,
audio player) is a parameter of the embedded function that calls it.
-/

/-! ## JavaScript string primitives

Helpers mirroring the handful of JS string operations the source uses:
`toLowerCase`, `trim`, `includes`, `startsWith`, and the specific regular
expressions appearing in the code.  JS `\s` also matches some exotic
Unicode spaces; the inputs of interest only use ASCII whitespace, which
is what `jsWhitespace` covers. -/

/-- ASCII part of the JS `\s` character class (space, tab, LF, VT, FF, CR). -/
def jsWhitespace (c : Char) : Bool :=
  c = ' ' || c = '\t' || c = '\n' || c = '\r' || c.toNat = 0x0B || c.toNat = 0x0C

/-- Character class `[,\.\s]` used by the transcription normalizer. -/
def punctOrWs (c : Char) : Bool :=
  c = ',' || c = '.' || jsWhitespace c

/-- Lowercase every character (JS `toLowerCase` on the code points used here). -/
def lowerL (l : List Char) : List Char := l.map Char.toLower

/-- Drop a leading and a trailing run of characters satisfying `p`
(the effect of the regex `/^X+|X+$/g`). -/
def stripEdges (p : Char → Bool) (l : List Char) : List Char :=
  ((l.dropWhile p).reverse.dropWhile p).reverse

/-- JS `String.prototype.trim`. -/
def trimL (l : List Char) : List Char := stripEdges jsWhitespace l

/-- JS `hay.includes(needle)`: substring test. -/
def isSubstrL : List Char → List Char → Bool
  | needle, [] => needle.isEmpty
  | needle, c :: cs => needle.isPrefixOf (c :: cs) || isSubstrL needle cs

/-- JS `hay.startsWith(pre)`. -/
def startsWithL (hay pre : List Char) : Bool := pre.isPrefixOf hay

/-! ## Transcription gate (`src/modules/transcription.js`)

`processBuffer` (lines 173-220) lowercases the buffered text and strips a
leading and trailing `[,\.\s]` run (line 184), then folds the wake-word
test over `this.wakeWords` (lines 185-189).  Line 187 of the file reads

  `('            normalized.startsWithhey ' + w) ||`

which is a parenthesized string concatenation, not a method call: as the
second disjunct of the `||` chain it is a non-empty string and hence
truthy, so the callback given to `some` is truthy for every wake word.
The sibling revisions of the same file carry the evidently intended
condition `normalized.startsWith('hey ' + w)`; both forms are embedded
below so they can be compared. -/

/-- Normalization applied before the wake-word test (transcription.js line 184):
lowercase, then strip one leading and one trailing `[,\.\s]+` run. -/
def normalizeSrc (s : String) : String :=
  String.mk (stripEdges punctOrWs (lowerL s.data))

/-- String produced by the expression on line 187 of transcription.js. -/
def line187Expr (w : String) : String :=
  "            normalized.startsWithhey " ++ w

/-- JS truthiness of a string: every non-empty string is truthy. -/
def jsTruthyStr (s : String) : Bool := !s.isEmpty

/-- Wake-word gate exactly as written in transcription.js lines 185-189:
`normalized.includes(w) || <line 187 string expression> ||
normalized.startsWith('okay ' + w)`. -/
def hasWakeWordSrc (wakeWords : List String) (normalized : String) : Bool :=
  wakeWords.any (fun w =>
    isSubstrL w.data normalized.data
    || jsTruthyStr (line187Expr w)
    || startsWithL normalized.data (("okay " ++ w).data))

/-- Normalization used by the intact sibling revisions of the transcription
manager (lines 334 and 265 of the two unnamed revisions): lowercase,
collapse every `[,\.\s]+` run to a single space, trim.  Fueled recursion;
the fuel is instantiated with the length of the list, which bounds the
number of steps. -/
def collapsePunctRuns : Nat → List Char → List Char
  | 0, l => l
  | _ + 1, [] => []
  | n + 1, c :: cs =>
      if punctOrWs c then ' ' :: collapsePunctRuns n (cs.dropWhile punctOrWs)
      else c :: collapsePunctRuns n cs

/-- Normalized text per the intact sibling revisions:
`text.toLowerCase().replace(/[,\.\s]+/g, ' ').trim()`. -/
def normalizeRevision (s : String) : String :=
  String.mk (trimL (collapsePunctRuns s.data.length (lowerL s.data)))

/-- Wake-word gate of the intact sibling revisions (and of the spec):
substring match, or prefix `"hey " + w`, or prefix `"okay " + w`. -/
def hasWakeWordRevision (wakeWords : List String) (normalized : String) : Bool :=
  wakeWords.any (fun w =>
    isSubstrL w.data normalized.data
    || startsWithL normalized.data (("hey " ++ w).data)
    || startsWithL normalized.data (("okay " ++ w).data))

/-! ## Text cleanup before dispatch (transcription.js lines 200-207)

For each wake word `w` the code removes, in this order, every
case-insensitive occurrence of `w`, of `hey\s*w`, and of `okay\s*w`,
then strips one leading `[,\.\s]+` run, trims, and falls back to the
unstripped text when the result is empty.  The regex patterns are
literal-word and `literal \s* literal` shapes, for which greedy
non-backtracking scanning coincides with JS regex semantics. -/

/-- Remove every case-insensitive occurrence of the literal `pat`
(given lowercased) from the list, scanning left to right without
overlap, as JS `replace(new RegExp(w, 'gi'), '')` does for a literal
pattern.  Fuel bounds the recursion; each step consumes one character
or a whole match. -/
def replaceAllCI (pat : List Char) : Nat → List Char → List Char
  | 0, l => l
  | _ + 1, [] => []
  | n + 1, c :: cs =>
      if !pat.isEmpty && pat.isPrefixOf (lowerL (c :: cs)) then
        replaceAllCI pat n (List.drop pat.length (c :: cs))
      else c :: replaceAllCI pat n cs

/-- Try to match `lit1 ++ \s* ++ lit2` (case-insensitive, both literals
given lowercased) at the head of the list; on success return the rest. -/
def matchGreetAt (lit1 lit2 : List Char) (l : List Char) : Option (List Char) :=
  if lit1.isPrefixOf (lowerL l) then
    let rest1 := (List.drop lit1.length l).dropWhile jsWhitespace
    if lit2.isPrefixOf (lowerL rest1) then some (List.drop lit2.length rest1)
    else none
  else none

/-- Remove every case-insensitive occurrence of `lit1 ++ \s* ++ lit2`,
as JS `replace(new RegExp('hey\\s*' + w, 'gi'), '')` does. -/
def replaceGreetCI (lit1 lit2 : List Char) : Nat → List Char → List Char
  | 0, l => l
  | _ + 1, [] => []
  | n + 1, c :: cs =>
      match matchGreetAt lit1 lit2 (c :: cs) with
      | some rest => replaceGreetCI lit1 lit2 n rest
      | none => c :: replaceGreetCI lit1 lit2 n cs

/-- Cleanup of the dispatched text, transcription.js lines 200-207. -/
def cleanTextSrc (wakeWords : List String) (text : String) : String :=
  let step (acc : List Char) (w : String) : List Char :=
    let acc1 := replaceAllCI (lowerL w.data) acc.length acc
    let acc2 := replaceGreetCI ("hey".data) (lowerL w.data) acc1.length acc1
    replaceGreetCI ("okay".data) (lowerL w.data) acc2.length acc2
  let cleaned := trimL ((wakeWords.foldl step text.data).dropWhile punctOrWs)
  if cleaned.isEmpty then text else String.mk cleaned

/-! ## Per-call transcript state machine

`updateBuffer` (lines 146-171) appends recognized text with a separating
space, resets the 1.5 s debounce timer, and schedules `processBuffer`.
`processBuffer` (lines 173-220) bails out if the buffer is empty or a
dispatch is in flight, discards buffers shorter than two characters,
applies the wake-word gate, and otherwise atomically clears the buffer,
sets the in-flight flag, dispatches the cleaned text, and finally clears
the flag when the external call returns.  The embedding represents one
call session as a state acted on by three events: a text append, the
expiry of the pending debounce timer, and the completion of the
in-flight dispatch.  `clearTimeout` is modelled by the `timerArmed`
flag: a fire event is a no-op unless a timer is pending, and appending
re-arms the timer. -/

structure TState where
  buffer : String
  processing : Bool
  timerArmed : Bool
  dispatches : List (String × String)
  deriving Repr, DecidableEq

inductive TEv where
  | append (text : String)
  | fire
  | complete
  deriving Repr, DecidableEq

/-- Buffer append, transcription.js line 157:
`state.buffer ? state.buffer + ' ' + text : text`. -/
def jsAppendBuffer (buf text : String) : String :=
  if buf = "" then text else buf ++ " " ++ text

/-- One step of the per-call transcript state machine. -/
def tStep (wakeWords : List String) (alwaysRespond : Bool) (st : TState) :
    TEv → TState
  | .append t =>
      { st with buffer := jsAppendBuffer st.buffer t, timerArmed := true }
  | .fire =>
      if !st.timerArmed then st else
      let st1 := { st with timerArmed := false }
      if st1.buffer = "" || st1.processing then st1
      else
        let text := String.mk (trimL st1.buffer.data)
        if text.length < 2 then st1
        else if !alwaysRespond && !hasWakeWordSrc wakeWords (normalizeSrc text) then
          st1
        else
          { st1 with processing := true, buffer := "",
                     dispatches :=
                       st1.dispatches ++ [(text, cleanTextSrc wakeWords text)] }
  | .complete => { st with processing := false }

/-- Initial transcript state of a call. -/
def initT : TState := ⟨"", false, false, []⟩

/-- Run a sequence of transcript events from the initial state. -/
def runT (wakeWords : List String) (alwaysRespond : Bool)
    (evs : List TEv) : TState :=
  evs.foldl (tStep wakeWords alwaysRespond) initT

/-- The configuration the claims are stated for: wake word `echo`,
`ALWAYS_RESPOND` off. -/
def runEcho (evs : List TEv) : TState := runT ["echo"] false evs

/-- C1: the wake-word gate is intended to pass a buffer iff the
normalized text contains the wake word, or starts with hey or okay plus
the wake word, so that with wake word echo the buffer play some jazz is
discarded with no dispatch.  In the shipped `processBuffer` line 187 is
the truthy string expression shown in `line187Expr`, so the gate
evaluates true for every buffer and play some jazz is dispatched; the
intact sibling revisions of the same function implement the intended
condition, under which play some jazz fails the gate and the three
positive examples pass. -/
theorem C1_wake_gate_always_passes :
    hasWakeWordSrc ["echo"] (normalizeSrc "play some jazz") = true
    ∧ (runEcho [TEv.append "play some jazz", TEv.fire]).dispatches.length = 1
    ∧ hasWakeWordRevision ["echo"] (normalizeRevision "play some jazz") = false
    ∧ hasWakeWordRevision ["echo"] (normalizeRevision "hey echo play jazz") = true
    ∧ hasWakeWordRevision ["echo"] (normalizeRevision "okay echo, stop") = true
    ∧ hasWakeWordRevision ["echo"] (normalizeRevision "echo what time is it") = true := by
  decide

/-- The wake-word gate of the shipped file evaluates true on every input
once the wake-word list is the default `["echo"]`, because the second
disjunct is a truthy string. -/
theorem gateEcho_true (s : String) : hasWakeWordSrc ["echo"] s = true := by
  have h : jsTruthyStr (line187Expr "echo") = true := by decide
  simp [hasWakeWordSrc, h]

/-- C2, counterexample: with wake word echo the buffer
hey echo what&apos;s up is dispatched with cleaned text
hey (two spaces) what&apos;s up, not what&apos;s up — the cleanup removes
every occurrence of the bare wake word first, so the greeting patterns
never match and the leading hey survives; and the buffer hello there is
dispatched as well (the gate passes every buffer), not discarded. -/
theorem C2_cleanup_counterexample :
    (runEcho [TEv.append "hey echo what's up", TEv.fire]).dispatches
      = [("hey echo what's up", "hey  what's up")]
    ∧ "hey  what's up" ≠ "what's up"
    ∧ (runEcho [TEv.append "hello there", TEv.fire]).dispatches.length = 1 := by
  decide

/-- C2, amended: a debounce expiry on an idle call whose trimmed buffer
has at least two characters produces exactly one dispatch; the dispatched
buffer is the trimmed original-case text and the text sent to the agent
is `cleanTextSrc` of it (all occurrences of the wake word removed, then
any remaining hey/okay greeting patterns, then leading punctuation,
falling back to the unstripped text when the result is empty).  With
wake word echo the buffer hey echo what&apos;s up is sent as
hey (two spaces) what&apos;s up, and hello there — which also passes the
shipped gate — is sent unchanged. -/
theorem C2_amended (st : TState)
    (h1 : st.processing = false) (h2 : st.timerArmed = true)
    (h3 : 2 ≤ (String.mk (trimL st.buffer.data)).length) :
    (tStep ["echo"] false st TEv.fire).dispatches
      = st.dispatches
        ++ [(String.mk (trimL st.buffer.data),
             cleanTextSrc ["echo"] (String.mk (trimL st.buffer.data)))]
    ∧ (tStep ["echo"] false st TEv.fire).processing = true
    ∧ (tStep ["echo"] false st TEv.fire).buffer = ""
    ∧ cleanTextSrc ["echo"] "hey echo what's up" = "hey  what's up"
    ∧ cleanTextSrc ["echo"] "hello there" = "hello there" := by
  have hb : st.buffer ≠ "" := by
    intro hb
    rw [hb] at h3
    exact absurd h3 (by decide)
  have hlen : ¬ (trimL st.buffer.data).length < 2 := by
    simpa [String.length] using Nat.not_lt.mpr h3
  refine ⟨?_, ?_, ?_, by decide, by decide⟩ <;>
    simp [tStep, h1, h2, hb, hlen, gateEcho_true]

/-- Witness for C2_amended at the concrete buffer of the scenario. -/
theorem C2_amended_witness :
    (tStep ["echo"] false ⟨"hey echo what's up", false, true, []⟩ TEv.fire).dispatches
      = ([] : List (String × String))
        ++ [(String.mk (trimL ("hey echo what's up").data),
             cleanTextSrc ["echo"] (String.mk (trimL ("hey echo what's up").data)))] :=
  (C2_amended ⟨"hey echo what's up", false, true, []⟩ rfl rfl (by decide)).1

/-- Every list is a substring of itself prefixed by anything. -/
theorem isSubstrL_self_after (l : List Char) :
    ∀ pre : List Char, isSubstrL l (pre ++ l) = true := by
  intro pre
  induction pre with
  | nil =>
      cases l with
      | nil => rfl
      | cons c cs => simp [isSubstrL, List.isPrefixOf_iff_prefix]
  | cons p ps ih => simp [isSubstrL, ih]

/-- The appended text is always a substring of the resulting buffer. -/
theorem jsAppendBuffer_keeps (buf t : String) :
    isSubstrL t.data (jsAppendBuffer buf t).data = true := by
  unfold jsAppendBuffer
  by_cases h : buf = ""
  · simpa [h] using isSubstrL_self_after t.data []
  · simp only [h, if_false, String.data_append]
    exact isSubstrL_self_after t.data (buf.data ++ " ".data)

/-- Shared helper: a debounce expiry on an idle call with a pending timer
and a viable buffer produces exactly the state of a fresh dispatch. -/
theorem tStep_fire_dispatch (st : TState)
    (h1 : st.processing = false) (h2 : st.timerArmed = true)
    (h3 : 2 ≤ (String.mk (trimL st.buffer.data)).length) :
    (tStep ["echo"] false st TEv.fire).dispatches
      = st.dispatches
        ++ [(String.mk (trimL st.buffer.data),
             cleanTextSrc ["echo"] (String.mk (trimL st.buffer.data)))] := by
  have hb : st.buffer ≠ "" := by
    intro hb
    rw [hb] at h3
    exact absurd h3 (by decide)
  have hlen : ¬ (trimL st.buffer.data).length < 2 := by
    simpa [String.length] using Nat.not_lt.mpr h3
  simp [tStep, h1, h2, hb, hlen, gateEcho_true]

/-- Event trace for the C5 counterexample: a dispatch starts, more text
arrives while it is in flight, its debounce timer expires before the
dispatch completes, and the dispatch then completes with no further
input. -/
def c5Trace : List TEv :=
  [TEv.append "hey echo one", TEv.fire,
   TEv.append "hey echo two", TEv.fire, TEv.complete]

/-- C5, counterexample: on the c5Trace run the text appended mid-dispatch
(hey echo two) is still in the buffer at quiescence — with no timer
pending, no dispatch in flight and only the first dispatch recorded — so
it is not processed by the next debounce cycle after the dispatch
completes: that cycle fired while the dispatch was in flight and was a
no-op, and no later cycle exists. -/
theorem C5_counterexample :
    (runEcho c5Trace).dispatches.length = 1
    ∧ (runEcho c5Trace).buffer = "hey echo two"
    ∧ (runEcho c5Trace).timerArmed = false
    ∧ (runEcho c5Trace).processing = false := by
  decide

/-- C5, amended: at most one dispatch is in flight per call — a debounce
expiry while the in-flight flag is set performs no dispatch and leaves
the buffer intact — and text appended mid-dispatch performs no dispatch,
remains as a substring of the buffer, re-arms the timer, and is
dispatched by the first debounce expiry that finds the call idle after
the dispatch completes; an expiry that happens while the dispatch is
still in flight is consumed without effect, so if the timer fired
mid-dispatch the buffered text waits for a further append to re-arm the
timer. -/
theorem C5_amended (st : TState) (t : String) (hp : st.processing = true) :
    (tStep ["echo"] false st TEv.fire).dispatches = st.dispatches
    ∧ (tStep ["echo"] false st TEv.fire).buffer = st.buffer
    ∧ (tStep ["echo"] false st (TEv.append t)).dispatches = st.dispatches
    ∧ isSubstrL t.data (tStep ["echo"] false st (TEv.append t)).buffer.data = true
    ∧ (tStep ["echo"] false st (TEv.append t)).timerArmed = true
    ∧ (∀ st2 : TState, st2.processing = false → st2.timerArmed = true →
        2 ≤ (String.mk (trimL st2.buffer.data)).length →
        (tStep ["echo"] false st2 TEv.fire).dispatches
          = st2.dispatches
            ++ [(String.mk (trimL st2.buffer.data),
                 cleanTextSrc ["echo"] (String.mk (trimL st2.buffer.data)))]) := by
  refine ⟨?_, ?_, ?_, ?_, ?_, fun st2 a b c => tStep_fire_dispatch st2 a b c⟩
  · by_cases ht : st.timerArmed <;> simp [tStep, hp, ht]
  · by_cases ht : st.timerArmed <;> simp [tStep, hp, ht]
  · simp [tStep]
  · simpa [tStep] using jsAppendBuffer_keeps st.buffer t
  · simp [tStep]

/-- Witness for C5_amended at a concrete in-flight state. -/
theorem C5_amended_witness :
    (tStep ["echo"] false ⟨"", true, false, [("hey echo one", "hey  one")]⟩
        (TEv.append "hey echo two")).dispatches
      = [("hey echo one", "hey  one")] :=
  (C5_amended ⟨"", true, false, [("hey echo one", "hey  one")]⟩ "hey echo two" rfl).2.2.1

/-- Event trace induced by two appends at times t1 and t2 under the
Node timer semantics used by updateBuffer (clearTimeout on every append,
then setTimeout of 1500 ms): when the second append arrives before the
first timer expires, the first timer is cancelled and never fires, so the
call sees both appends followed by a single expiry; otherwise the first
timer fires in between and the second append schedules its own expiry. -/
def debounceEvents (t1 t2 : Nat) (x1 x2 : String) : List TEv :=
  if t2 < t1 + 1500 then [TEv.append x1, TEv.append x2, TEv.fire]
  else [TEv.append x1, TEv.fire, TEv.append x2, TEv.fire]

/-- C6: two appends to one call separated by less than the 1500 ms
debounce interval produce exactly one dispatch, whose buffer input is
the space-separated concatenation of the two texts (the agent then
receives that buffer after wake-word cleanup); and every append re-arms
the pending debounce timer.  The side conditions say the texts are what
the recognizer actually hands over: the first is non-empty and the
concatenation is trimmed and at least two characters long. -/
theorem C6_debounce_single_dispatch (t1 t2 : Nat) (x1 x2 : String)
    (hlt : t2 < t1 + 1500) (h1 : x1 ≠ "")
    (htrim : trimL (x1 ++ " " ++ x2).data = (x1 ++ " " ++ x2).data)
    (hlen : 2 ≤ (x1 ++ " " ++ x2).length) :
    (runEcho (debounceEvents t1 t2 x1 x2)).dispatches
      = [(x1 ++ " " ++ x2, cleanTextSrc ["echo"] (x1 ++ " " ++ x2))]
    ∧ (∀ st : TState, ∀ t : String,
        (tStep ["echo"] false st (TEv.append t)).timerArmed = true) := by
  constructor
  · have hevs : debounceEvents t1 t2 x1 x2
        = [TEv.append x1, TEv.append x2, TEv.fire] := by
      simp [debounceEvents, hlt]
    have hbuf : jsAppendBuffer (jsAppendBuffer "" x1) x2 = x1 ++ " " ++ x2 := by
      simp [jsAppendBuffer, h1]
    have hst : runEcho (debounceEvents t1 t2 x1 x2)
        = tStep ["echo"] false ⟨x1 ++ " " ++ x2, false, true, []⟩ TEv.fire := by
      rw [hevs]
      show tStep ["echo"] false
          (tStep ["echo"] false (tStep ["echo"] false initT (TEv.append x1))
            (TEv.append x2)) TEv.fire = _
      congr 1
      simp [tStep, initT, jsAppendBuffer, h1]
    rw [hst]
    have hmk : String.mk (trimL (x1 ++ " " ++ x2).data) = x1 ++ " " ++ x2 := by
      rw [htrim]
    have := tStep_fire_dispatch ⟨x1 ++ " " ++ x2, false, true, []⟩ rfl rfl
      (by rw [hmk]; exact hlen)
    rw [hmk] at this
    simpa using this
  · intro st t
    simp [tStep]

/-- Witness for C6 on the scenario texts hello and there spoken one
second apart. -/
theorem C6_debounce_witness :
    (runEcho (debounceEvents 0 1000 "hello" "there")).dispatches
      = [("hello" ++ " " ++ "there", cleanTextSrc ["echo"] ("hello" ++ " " ++ "there"))] :=
  (C6_debounce_single_dispatch 0 1000 "hello" "there" (by decide) (by decide)
    (by decide) (by decide)).1

/-! ## Playback queue, radio mode and stream cache

The queue operations come from the music manager (`addToQueue`,
`getNextFromQueue`, `clearQueue`, lines 29-46 of `src/modules/music.js`,
identical in the radio-capable revision), the stop handler from the
commands module (case stop, lines 144-151), the refill logic of
`playNext` from the radio-capable revision (lines 206-238 with the
post-refill self-call unrolled once, which is all it can do there since
the queue is then non-empty), and the mid-stream error handler from the
same function (lines 244-254).  External lookups (`yt-dlp` searches and
stream resolution) are function parameters; the urls a function passes
to the resolver are returned so the number of resolution attempts is
observable. -/

structure Song where
  url : String
  title : String
  requestedBy : String
  addedAt : Nat
  deriving Repr, DecidableEq

structure RadioDesc where
  query : String
  lastFetch : Nat
  deriving Repr, DecidableEq

structure MusicState where
  queue : List Song
  radio : Option RadioDesc
  deriving Repr, DecidableEq

/-- music.js lines 29-36: reject with -1 when the queue already holds
`maxQueueSize` tracks, otherwise push and return the new length. -/
def addToQueue (maxQueueSize : Nat) (st : MusicState)
    (url title requestedBy : String) (now : Nat) : MusicState × Int :=
  if st.queue.length ≥ maxQueueSize then (st, -1)
  else ({ st with queue := st.queue ++ [⟨url, title, requestedBy, now⟩] },
        (st.queue.length : Int) + 1)

/-- music.js lines 38-41: shift the queue head. -/
def getNextFromQueue (st : MusicState) : Option Song × MusicState :=
  match st.queue with
  | [] => (none, st)
  | s :: rest => (some s, { st with queue := rest })

/-- music.js lines 43-45: reset the queue to empty.  The radio
descriptor map is a separate field and is not touched. -/
def clearQueue (st : MusicState) : MusicState := { st with queue := [] }

inductive PlayerAction where
  | stopPlayer
  | play (streamUrl : String)
  deriving Repr, DecidableEq

/-- Commands module, case stop (lines 144-151): when a player exists,
stop it and clear the queue; the handler calls nothing else. -/
def stopCommand (playerExists : Bool) (st : MusicState) :
    MusicState × List PlayerAction :=
  if playerExists then (clearQueue st, [PlayerAction.stopPlayer]) else (st, [])

/-- Enqueue a batch of urls as the radio refill loop does
(lines 213-216 and 232-235), all with the radio query as title and
requester as the code passes them. -/
def enqueueUrls (maxQ : Nat) (st : MusicState) (urls : List String)
    (title requester : String) (now : Nat) : MusicState :=
  urls.foldl (fun s u => (addToQueue maxQ s u title requester now).1) st

/-- Result of one `playNext` invocation: the new queue/radio state, the
refill activity, and the track handed to the player if any. -/
structure PlayNextResult where
  state : MusicState
  exhaustRefill : Bool
  lowWaterRefill : Bool
  played : Option Song
  deriving Repr, DecidableEq

/-- Queue/radio effects of one `playNext` invocation (radio-capable
revision, lines 206-238 plus the head shift): on an empty queue with a
radio descriptor, fetch a batch of 8 and, when that produced tracks,
re-enter with the now non-empty queue; otherwise shift the head, and
while in radio mode with fewer than 3 tracks left after the shift fetch
another batch.  Stream resolution and playback of the shifted track
(lines 240-266) are external to this function and are modelled by
`playerErrorRecovery` below for the mid-stream error path. -/
def playNextModel (maxQ : Nat) (searchMultiple : String → Nat → List String)
    (now : Nat) (st : MusicState) : PlayNextResult :=
  match st.queue with
  | [] =>
      match st.radio with
      | some r =>
          let st1 := enqueueUrls maxQ st (searchMultiple r.query 8) r.query "radio" now
          match st1.queue with
          | [] => ⟨st1, true, false, none⟩
          | s :: rest => ⟨{ st1 with queue := rest }, true, false, some s⟩
      | none => ⟨st, false, false, none⟩
  | s :: rest =>
      let st1 : MusicState := { st with queue := rest }
      match st.radio with
      | some r =>
          if rest.length < 3 then
            ⟨enqueueUrls maxQ st1 (searchMultiple r.query 8) r.query "radio" now,
             false, true, some s⟩
          else ⟨st1, false, false, some s⟩
      | none => ⟨st1, false, false, some s⟩

/-- Mid-stream player-error handler of the radio-capable revision
(lines 244-254): one fresh resolution of the erroring track; on success
replay it, on failure only log.  The third component lists the urls
passed to the resolver. -/
def playerErrorRecovery (resolve : String → Option String) (next : Song)
    (st : MusicState) : MusicState × Option PlayerAction × List String :=
  match resolve next.url with
  | some fresh => (st, some (PlayerAction.play fresh), [next.url])
  | none => (st, none, [next.url])

/-- Concrete radio descriptor and state for the C3 counterexample. -/
def c3Radio : RadioDesc := ⟨"jazz radio", 0⟩

/-- State with one queued track and radio mode active. -/
def c3State : MusicState := ⟨[⟨"u0", "t0", "alice", 0⟩], some c3Radio⟩

/-- C3, counterexample: an explicit stop on a call in radio mode clears
the queue but leaves the radio descriptor in place, and the next idle
transition then performs a radio refill and starts another track — the
claim says stop removes the radio descriptor so that no refill can be
triggered after it. -/
theorem C3_stop_keeps_radio_counterexample :
    (stopCommand true c3State).1.queue = []
    ∧ (stopCommand true c3State).1.radio = some c3Radio
    ∧ (playNextModel 100 (fun _ _ => ["u1", "u2"]) 5
        (stopCommand true c3State).1).exhaustRefill = true
    ∧ (playNextModel 100 (fun _ _ => ["u1", "u2"]) 5
        (stopCommand true c3State).1).played.isSome = true := by
  decide

/-- C3, amended: stop halts the player and clears the whole queue, but
the radio descriptor survives both stop and clear — nothing in the code
removes it — so when the player next goes idle with the queue empty, a
radio refill is triggered exactly when a radio descriptor is present. -/
theorem C3_amended (maxQ : Nat) (sm : String → Nat → List String)
    (now : Nat) (st : MusicState) :
    (stopCommand true st).2 = [PlayerAction.stopPlayer]
    ∧ (stopCommand true st).1.queue = []
    ∧ (stopCommand true st).1.radio = st.radio
    ∧ (clearQueue st).radio = st.radio
    ∧ (playNextModel maxQ sm now (stopCommand true st).1).exhaustRefill
        = st.radio.isSome := by
  refine ⟨rfl, rfl, rfl, rfl, ?_⟩
  cases h : st.radio with
  | none => simp [stopCommand, clearQueue, playNextModel, h]
  | some r =>
      have hstop : (stopCommand true st).1 = ⟨[], some r⟩ := by
        simp [stopCommand, clearQueue, h]
      rw [hstop]
      simp only [playNextModel, Option.isSome]
      cases henq : (enqueueUrls maxQ ⟨[], some r⟩ (sm r.query 8) r.query "radio" now).queue <;>
        simp [henq]

/-- Erroring track and queued successor for the C4 counterexample. -/
def c4Song : Song := ⟨"https://www.youtube.com/watch?v=aaa", "a", "bob", 0⟩

/-- The track waiting in the queue behind the erroring one. -/
def c4Next : Song := ⟨"https://www.youtube.com/watch?v=bbb", "b", "bob", 1⟩

/-- C4, counterexample: when the single retry of the erroring track also
fails, the handler leaves the queue untouched and starts nothing — the
queued track b is neither consumed nor played, so the scheduler does not
advance to the next queued track as the claim states. -/
theorem C4_retry_fail_no_advance_counterexample :
    playerErrorRecovery (fun _ => none) c4Song ⟨[c4Next], none⟩
      = (⟨[c4Next], none⟩, none, [c4Song.url]) := by
  decide

/-- C4, amended: on a mid-stream player error the handler resolves the
same track exactly once — the resolver receives exactly the erroring
track&apos;s url — never touches the queue, replays the same track on a
successful re-resolution, and on a failed re-resolution only logs,
playing nothing; any advancement to the next queued track happens only
through the separate idle transition of the player. -/
theorem C4_amended (resolve : String → Option String) (next : Song)
    (st : MusicState) :
    (playerErrorRecovery resolve next st).2.2 = [next.url]
    ∧ (playerErrorRecovery resolve next st).1 = st
    ∧ (∀ fresh, resolve next.url = some fresh →
        (playerErrorRecovery resolve next st).2.1
          = some (PlayerAction.play fresh))
    ∧ (resolve next.url = none →
        (playerErrorRecovery resolve next st).2.1 = none) := by
  unfold playerErrorRecovery
  cases h : resolve next.url <;>
    simp [h]

/-- Witness for C4_amended: a successful retry replays the same track. -/
theorem C4_amended_witness :
    (playerErrorRecovery (fun _ => some "fresh-url") c4Song ⟨[c4Next], none⟩).2.1
      = some (PlayerAction.play "fresh-url") :=
  (C4_amended (fun _ => some "fresh-url") c4Song ⟨[c4Next], none⟩).2.2.1
    "fresh-url" rfl

/-- C8: when the queue already holds the configured maximum number of
tracks, a further enqueue returns the rejection value -1 and leaves the
state unchanged; and from any queue within the bound, an enqueue never
pushes the length past the bound. -/
theorem C8_queue_capacity (maxQ : Nat) (st : MusicState)
    (url title req : String) (now : Nat) :
    (st.queue.length = maxQ →
      addToQueue maxQ st url title req now = (st, -1))
    ∧ (st.queue.length ≤ maxQ →
      (addToQueue maxQ st url title req now).1.queue.length ≤ maxQ) := by
  constructor
  · intro h
    simp [addToQueue, h]
  · intro h
    by_cases hfull : st.queue.length ≥ maxQ
    · simp [addToQueue, hfull, h]
    · have hlt : st.queue.length < maxQ := Nat.not_le.mp hfull
      simp [addToQueue, hfull]
      omega

/-- Witness for C8 on a queue already at the configured maximum of 2. -/
theorem C8_queue_capacity_witness :
    addToQueue 2 ⟨[⟨"u1", "t1", "a", 0⟩, ⟨"u2", "t2", "b", 1⟩], none⟩
        "u3" "t3" "c" 2
      = (⟨[⟨"u1", "t1", "a", 0⟩, ⟨"u2", "t2", "b", 1⟩], none⟩, -1) :=
  (C8_queue_capacity 2 ⟨[⟨"u1", "t1", "a", 0⟩, ⟨"u2", "t2", "b", 1⟩], none⟩
    "u3" "t3" "c" 2).1 rfl

/-! ## Stream-url cache (music.js lines 50-74)

`streamCache` is a JS Map from url to an entry holding the resolved
stream url and an absolute expiry time.  `getCachedStream` returns the
value only while `expires > Date.now()`, otherwise deletes the entry
and returns null; `setCachedStream` overwrites the entry with expiry
`Date.now() + CACHE_TTL_MS`.  A map is embedded as an association list
with unique keys; none of the embedded operations observes iteration
order. -/

structure CacheEntry where
  streamUrl : String
  expires : Nat
  deriving Repr, DecidableEq

/-- Association-list lookup (JS `Map.prototype.get`). -/
def alistLookup {α : Type} : List (String × α) → String → Option α
  | [], _ => none
  | (k, v) :: rest, key => if k = key then some v else alistLookup rest key

/-- Association-list removal (JS `Map.prototype.delete`). -/
def alistErase {α : Type} : List (String × α) → String → List (String × α)
  | [], _ => []
  | (k, v) :: rest, key =>
      if k = key then alistErase rest key else (k, v) :: alistErase rest key

/-- music.js lines 50-58: hit only while `now < expires`; on an expired
or absent entry, delete it and miss. -/
def getCachedStream (now : Nat) (c : List (String × CacheEntry))
    (url : String) : Option String × List (String × CacheEntry) :=
  match alistLookup c url with
  | some e => if now < e.expires then (some e.streamUrl, c) else (none, alistErase c url)
  | none => (none, alistErase c url)

/-- music.js lines 60-65: overwrite the entry for the url with expiry
`now + ttl`. -/
def setCachedStream (now ttl : Nat) (c : List (String × CacheEntry))
    (url streamUrl : String) : List (String × CacheEntry) :=
  (url, ⟨streamUrl, now + ttl⟩) :: alistErase c url

/-- Erasing a key removes every binding for it. -/
theorem alistLookup_erase {α : Type} (c : List (String × α)) (key : String) :
    alistLookup (alistErase c key) key = none := by
  induction c with
  | nil => rfl
  | cons kv rest ih =>
      obtain ⟨k, v⟩ := kv
      by_cases h : k = key <;> simp [alistErase, alistLookup, h, ih]

/-- C9: after putting a value with a ttl, a get strictly before the
expiry returns the value; a get at or after the expiry is a miss that
also removes the entry; and a later put for the same key overwrites the
value and sets a fresh expiry of its own time plus the ttl. -/
theorem C9_cache_roundtrip (c : List (String × CacheEntry))
    (url v : String) (ttl t0 t : Nat) :
    (t < t0 + ttl →
      (getCachedStream t (setCachedStream t0 ttl c url v) url).1 = some v)
    ∧ (t0 + ttl ≤ t →
      (getCachedStream t (setCachedStream t0 ttl c url v) url).1 = none
      ∧ alistLookup
          (getCachedStream t (setCachedStream t0 ttl c url v) url).2 url
        = none)
    ∧ (∀ v2 t2,
        alistLookup
          (setCachedStream t2 ttl (setCachedStream t0 ttl c url v) url v2) url
        = some ⟨v2, t2 + ttl⟩) := by
  refine ⟨?_, ?_, ?_⟩
  · intro h
    simp [getCachedStream, setCachedStream, alistLookup, h]
  · intro h
    have hnot : ¬ t < t0 + ttl := Nat.not_lt.mpr h
    constructor
    · simp [getCachedStream, setCachedStream, alistLookup, hnot]
    · simp [getCachedStream, setCachedStream, alistLookup, hnot, alistLookup_erase]
  · intro v2 t2
    simp [setCachedStream, alistLookup]

/-- Witness for C9 with ttl 3600000 put at time 0, read at times 10 and
3600000. -/
theorem C9_cache_roundtrip_witness :
    10 < 0 + 3600000
    ∧ (getCachedStream 10 (setCachedStream 0 3600000 [] "yt" "s1") "yt").1
        = some "s1"
    ∧ (getCachedStream 3600000 (setCachedStream 0 3600000 [] "yt" "s1") "yt").1
        = none :=
  ⟨by decide,
   (C9_cache_roundtrip [] "yt" "s1" 3600000 0 10).1 (by decide),
   ((C9_cache_roundtrip [] "yt" "s1" 3600000 0 3600000).2.1 (by decide)).1⟩

/-! ## TTS entry point (`src/modules/tts.js`, lines 10-58)

`speak` first bails out when the call has no voice connection, then
strips Discord emoji tags `<:name:id>`, three Unicode emoji ranges, an
explicit emoji character class and the markdown characters, and trims;
when the result is empty it returns before touching the cache, the
synthesizer or the player.  Otherwise it serves the audio from the
per-(call,text) cache or synthesizes and caches it (evicting the oldest
entry past 100), and plays it.  The synthesizer is a parameter; the
third component of the result records whether it was invoked. -/

/-- Character allowed inside the name part of a Discord emoji tag
(`[a-zA-Z0-9_]`). -/
def isTagNameChar (c : Char) : Bool := c.isAlphanum || c = '_'

/-- Match `<:name:digits>` at the head of the list and return the rest.
For this pattern greedy maximal runs coincide with the JS regex
`/<:[a-zA-Z0-9_]+:\d+>/` since neither run can be shortened onto a
matching continuation. -/
def dropTagAt : List Char → Option (List Char)
  | '<' :: ':' :: rest =>
      let name := rest.takeWhile isTagNameChar
      let r1 := rest.dropWhile isTagNameChar
      if name.isEmpty then none
      else
        match r1 with
        | ':' :: r2 =>
            let ds := r2.takeWhile Char.isDigit
            let r3 := r2.dropWhile Char.isDigit
            if ds.isEmpty then none
            else
              match r3 with
              | '>' :: r4 => some r4
              | _ => none
        | _ => none
  | _ => none

/-- Remove every Discord emoji tag, tts.js line 16.  Fueled scan; each
step consumes at least one character. -/
def removeDiscordTags : Nat → List Char → List Char
  | 0, l => l
  | _ + 1, [] => []
  | n + 1, c :: cs =>
      match dropTagAt (c :: cs) with
      | some rest => removeDiscordTags n rest
      | none => c :: removeDiscordTags n cs

/-- Unicode emoji block 1F300-1F9FF, tts.js line 17. -/
def inEmojiBlock (c : Char) : Bool :=
  decide (0x1F300 ≤ c.toNat) && decide (c.toNat ≤ 0x1F9FF)

/-- Miscellaneous symbols 2600-26FF, tts.js line 18. -/
def inMiscBlock (c : Char) : Bool :=
  decide (0x2600 ≤ c.toNat) && decide (c.toNat ≤ 0x26FF)

/-- Dingbats 2700-27BF, tts.js line 19. -/
def inDingbatBlock (c : Char) : Bool :=
  decide (0x2700 ≤ c.toNat) && decide (c.toNat ≤ 0x27BF)

/-- Code points of the explicit character class on tts.js line 20
(music and common emojis; the variation selector FE0F appears there as
part of the keycap-style sequences). -/
def commonEmojiCodes : List Nat :=
  [0x1F3B5, 0x1F3B6, 0x1F3A4, 0x1F50A, 0x1F507, 0x23F8, 0xFE0F, 0x23F9,
   0x23ED, 0x23EE, 0x27A1, 0x2B05, 0x2B06, 0x2B07, 0x1F480, 0x1F602,
   0x1F923, 0x2764, 0x1F44D, 0x1F525, 0x2728]

/-- Membership in the explicit emoji character class. -/
def inCommonEmoji (c : Char) : Bool := commonEmojiCodes.contains c.toNat

/-- Markdown characters removed on tts.js line 21: asterisk, underscore,
backquote (code 60) and tilde. -/
def isMarkdownChar (c : Char) : Bool :=
  c = '*' || c = '_' || c.toNat = 0x60 || c = '~'

/-- The full strip-and-trim pipeline of tts.js lines 15-22, in source
order. -/
def cleanTTSText (s : String) : String :=
  let l0 := removeDiscordTags s.data.length s.data
  let l1 := l0.filter (fun c => !inEmojiBlock c)
  let l2 := l1.filter (fun c => !inMiscBlock c)
  let l3 := l2.filter (fun c => !inDingbatBlock c)
  let l4 := l3.filter (fun c => !inCommonEmoji c)
  let l5 := l4.filter (fun c => !isMarkdownChar c)
  String.mk (trimL l5)

/-- Cache key of the synthesized audio, tts.js line 27. -/
def ttsCacheKey (guildId text : String) : String := guildId ++ ":" ++ text

/-- The body of `speak` after the voice-connection guard, acting on the
module-level `ttsCache`.  Audio buffers are abstract (`α`); the result
is the new cache, the resource handed to the player if any, and whether
`generateTTS` was invoked. -/
def speakModel {α : Type} (gen : String → Option α) (vcExists : Bool)
    (cache : List (String × α)) (guildId text : String) :
    List (String × α) × Option α × Bool :=
  if !vcExists then (cache, none, false)
  else
    let t := cleanTTSText text
    if t = "" then (cache, none, false)
    else
      let key := ttsCacheKey guildId t
      match alistLookup cache key with
      | some buf => (cache, some buf, false)
      | none =>
          match gen t with
          | some buf =>
              let c1 := cache ++ [(key, buf)]
              let c2 := if c1.length > 100 then c1.drop 1 else c1
              (c2, some buf, true)
          | none => (cache, none, true)

/-- C10: when the text strips to empty, `speak` returns before invoking
the synthesizer, leaves the TTS cache exactly as it was, and hands
nothing to the player — whether or not the call has a voice
connection. -/
theorem C10_speak_empty_noop {α : Type} (gen : String → Option α)
    (vc : Bool) (cache : List (String × α)) (guildId text : String)
    (h : cleanTTSText text = "") :
    speakModel gen vc cache guildId text = (cache, none, false) := by
  cases vc with
  | false => rfl
  | true => simp [speakModel, h]

/-- Witness for C10 on a message of markdown stars around a music emoji,
which strips to empty. -/
theorem C10_speak_empty_noop_witness :
    speakModel (fun _ => some 7) true [("g1:hi", 5)] "g1" "** 🎵 **"
      = ([("g1:hi", 5)], none, false) :=
  C10_speak_empty_noop (fun _ => some 7) true [("g1:hi", 5)] "g1" "** 🎵 **"
    (by decide)

/-! ## Per-speaker voice-activity segmenter (`src/modules/voice.js`)

The VAD-capable voice manager keeps, per user, an accumulator of
VAD-positive frames (`speechChunks`) and a consecutive-silence counter.
A decoded frame classified as speech is accumulated and resets the
counter (lines 200-209; the interim partial sends flagged not-final on
line 208 are not utterance finalizations).  A frame classified as
non-speech increments the counter, and when the counter exceeds 10 with
speech accumulated, the accumulator is emitted as a final utterance and
both accumulator and counter reset (lines 210-221).  The transport
speaking-end signal emits the accumulator when non-empty and resets both
regardless (lines 158-177).  Frames below the minimum viable size are
discarded before classification (line 191) and never reach the state
machine, so an event here is a classified viable frame or the end
signal.  Only the counts matter to the claims, so the accumulator is
tracked by its length. -/

inductive VEv where
  | frame (speech : Bool)
  | endSig
  deriving Repr, DecidableEq

structure SegState where
  speechCount : Nat
  silence : Nat
  deriving Repr, DecidableEq

/-- Does this event finalize an utterance in this state? -/
def segFires (st : SegState) : VEv → Bool
  | .frame true => false
  | .frame false => decide (st.silence + 1 > 10) && decide (st.speechCount > 0)
  | .endSig => decide (st.speechCount > 0)

/-- State after one event. -/
def segNext (st : SegState) : VEv → SegState
  | .frame true => ⟨st.speechCount + 1, 0⟩
  | .frame false =>
      if st.silence + 1 > 10 ∧ st.speechCount > 0 then ⟨0, 0⟩
      else ⟨st.speechCount, st.silence + 1⟩
  | .endSig => ⟨0, 0⟩

/-- One step of state plus finalized-utterance count. -/
def segStep (p : SegState × Nat) (e : VEv) : SegState × Nat :=
  (segNext p.1 e, if segFires p.1 e then p.2 + 1 else p.2)

/-- Run a frame/end event sequence for one speaker from the fresh state;
the second component counts the finalized utterances emitted. -/
def segRun (evs : List VEv) : SegState × Nat := evs.foldl segStep (⟨0, 0⟩, 0)

/-- Length of the trailing run of silence frames of an event sequence. -/
def trailingSilence (evs : List VEv) : Nat :=
  evs.foldl (fun acc e => if e = VEv.frame false then acc + 1 else 0) 0

/-- Sequence-level terminator condition with silence window `d + 1`:
some speech frame is followed by an end signal or by a position closing
a window of `d + 1` consecutive silence frames.  `d = 10` is what the
code implements (eleven consecutive silence frames); `d = 9` is the ten
frames the claim states. -/
def TermRunAt (d : Nat) (evs : List VEv) : Prop :=
  ∃ j k : Nat, j < k ∧ evs[j]? = some (VEv.frame true) ∧
    (evs[k]? = some VEv.endSig
     ∨ ∀ m ∈ Finset.Icc (k - d) k, evs[m]? = some (VEv.frame false))

/-- Unfolding a run over a snoc. -/
theorem segRun_append (evs : List VEv) (e : VEv) :
    segRun (evs ++ [e]) = segStep (segRun evs) e := by
  simp [segRun, List.foldl_append]

/-- Utterance counts only grow. -/
theorem segRun_snd_mono (evs : List VEv) (e : VEv) :
    (segRun evs).2 ≤ (segRun (evs ++ [e])).2 := by
  rw [segRun_append]
  unfold segStep
  by_cases h : segFires (segRun evs).1 e <;> simp [h]

/-- Trailing silence over a snoc. -/
theorem trailingSilence_append (evs : List VEv) (e : VEv) :
    trailingSilence (evs ++ [e])
      = if e = VEv.frame false then trailingSilence evs + 1 else 0 := by
  simp [trailingSilence, List.foldl_append]

/-- While no utterance has been finalized, speech is accumulated iff a
speech frame occurred. -/
theorem seg_speech_inv (evs : List VEv) (h : (segRun evs).2 = 0) :
    0 < (segRun evs).1.speechCount ↔ VEv.frame true ∈ evs := by
  induction evs using List.reverseRecOn with
  | nil => simp [segRun]
  | append_singleton evs e ih =>
      have h0 : (segRun evs).2 = 0 :=
        Nat.le_zero.mp (h ▸ segRun_snd_mono evs e)
      have ih' := ih h0
      have hfire : segFires (segRun evs).1 e = false := by
        by_contra hf
        rw [segRun_append] at h
        unfold segStep at h
        rw [eq_true_of_ne_false hf] at h
        simp [h0] at h
      rw [segRun_append]
      unfold segStep
      cases e with
      | frame sp =>
          cases sp with
          | true => simp [segNext]
          | false =>
              have hcond : ¬((segRun evs).1.silence + 1 > 10
                  ∧ (segRun evs).1.speechCount > 0) := by
                simpa [segFires] using hfire
              simp only [segNext]
              rw [if_neg hcond]
              simp [ih']
      | endSig =>
          have hsc : (segRun evs).1.speechCount = 0 := by
            simpa [segFires] using hfire
          have hnmem : VEv.frame true ∉ evs := by
            rw [← ih', hsc]
            simp
          simp [segNext, hnmem]

/-- While no utterance has been finalized, the silence counter equals
the trailing silence run of the event sequence. -/
theorem seg_silence_inv (evs : List VEv) (h : (segRun evs).2 = 0) :
    (segRun evs).1.silence = trailingSilence evs := by
  induction evs using List.reverseRecOn with
  | nil => simp [segRun, trailingSilence]
  | append_singleton evs e ih =>
      have h0 : (segRun evs).2 = 0 :=
        Nat.le_zero.mp (h ▸ segRun_snd_mono evs e)
      have ih' := ih h0
      have hfire : segFires (segRun evs).1 e = false := by
        by_contra hf
        rw [segRun_append] at h
        unfold segStep at h
        rw [eq_true_of_ne_false hf] at h
        simp [h0] at h
      rw [segRun_append, trailingSilence_append]
      unfold segStep
      cases e with
      | frame sp =>
          cases sp with
          | true => simp [segNext]
          | false =>
              have hcond : ¬((segRun evs).1.silence + 1 > 10
                  ∧ (segRun evs).1.speechCount > 0) := by
                simpa [segFires] using hfire
              simp only [segNext]
              rw [if_neg hcond]
              simp [ih']
      | endSig => simp [segNext]

/-- A trailing silence run of length at least `c` makes the last `c`
positions silence frames. -/
theorem trailing_suffix_silence (evs : List VEv) :
    ∀ c, c ≤ trailingSilence evs → ∀ i, evs.length - c ≤ i → i < evs.length →
      evs[i]? = some (VEv.frame false) := by
  induction evs using List.reverseRecOn with
  | nil => intro c _ i _ hi; exact absurd hi (by simp)
  | append_singleton evs e ih =>
      intro c hc i hle hlt
      rw [trailingSilence_append] at hc
      have hlen : (evs ++ [e]).length = evs.length + 1 := by simp
      rw [hlen] at hle hlt
      by_cases he : e = VEv.frame false
      · rw [he] at hc ⊢
        have hc' : c ≤ trailingSilence evs + 1 := by simpa using hc
        rcases Nat.lt_or_ge i evs.length with hi | hi
        · rw [List.getElem?_append_left hi]
          exact ih (c - 1) (by omega) i (by omega) hi
        · have hieq : i = evs.length := by omega
          rw [hieq]
          exact List.getElem?_concat_length evs (VEv.frame false)
      · rw [if_neg he] at hc
        have hc0 : c = 0 := Nat.le_zero.mp hc
        omega

/-- Conversely, if the last `c` positions are silence frames then the
trailing silence run is at least `c`. -/
theorem suffix_silence_trailing (evs : List VEv) :
    ∀ c, c ≤ evs.length →
      (∀ i, evs.length - c ≤ i → i < evs.length →
        evs[i]? = some (VEv.frame false)) →
      c ≤ trailingSilence evs := by
  induction evs using List.reverseRecOn with
  | nil =>
      intro c hc _
      simp at hc
      simp [hc, trailingSilence]
  | append_singleton evs e ih =>
      intro c hc hall
      have hlen : (evs ++ [e]).length = evs.length + 1 := by simp
      rw [hlen] at hc
      rcases Nat.eq_zero_or_pos c with hc0 | hcpos
      · omega
      · have hlast : (evs ++ [e])[evs.length]? = some (VEv.frame false) := by
          refine hall evs.length ?_ ?_ <;> rw [hlen] <;> omega
        rw [List.getElem?_concat_length] at hlast
        have he : e = VEv.frame false := by
          injection hlast
        rw [trailingSilence_append, he, if_pos rfl]
        have hstep : c - 1 ≤ trailingSilence evs := by
          refine ih (c - 1) (by omega) ?_
          intro i hle hlt
          have hi := hall i (by rw [hlen]; omega) (by rw [hlen]; omega)
          rwa [List.getElem?_append_left hlt] at hi
        omega

/-- A terminated run in a prefix is still a terminated run after more
events. -/
theorem termRunAt_append (d : Nat) (evs : List VEv) (e : VEv)
    (h : TermRunAt d evs) : TermRunAt d (evs ++ [e]) := by
  obtain ⟨j, k, hjk, hj, hterm⟩ := h
  have hk : k < evs.length := by
    rcases hterm with hk | hwin
    · exact (List.getElem?_eq_some.mp hk).1
    · have hkk := hwin k (Finset.mem_Icc.mpr ⟨Nat.sub_le _ _, le_refl _⟩)
      exact (List.getElem?_eq_some.mp hkk).1
  have hj' : j < evs.length := lt_trans hjk hk
  refine ⟨j, k, hjk, ?_, ?_⟩
  · rw [List.getElem?_append_left hj']
    exact hj
  · rcases hterm with hend | hwin
    · exact Or.inl (by rw [List.getElem?_append_left hk]; exact hend)
    · refine Or.inr fun m hm => ?_
      have hmk : m ≤ k := (Finset.mem_Icc.mp hm).2
      rw [List.getElem?_append_left (lt_of_le_of_lt hmk hk)]
      exact hwin m hm

/-- A finalized utterance yields a terminated run with the eleven-frame
silence window the code implements. -/
theorem segRun_pos_termRun (evs : List VEv) (h : 0 < (segRun evs).2) :
    TermRunAt 10 evs := by
  induction evs using List.reverseRecOn with
  | nil => simp [segRun] at h
  | append_singleton evs e ih =>
      rcases Nat.eq_zero_or_pos (segRun evs).2 with h0 | hpos
      · rw [segRun_append] at h
        unfold segStep at h
        by_cases hf : segFires (segRun evs).1 e
        · obtain ⟨jj, hjj⟩ : ∃ j : Nat, evs[j]? = some (VEv.frame true) := by
            rcases e with sp | _
            · cases sp with
              | true => simp [segFires] at hf
              | false =>
                  have hsc : 0 < (segRun evs).1.speechCount := by
                    have hfc := hf
                    simp only [segFires, Bool.and_eq_true, decide_eq_true_eq] at hfc
                    exact hfc.2
                  exact List.mem_iff_getElem?.mp ((seg_speech_inv evs h0).mp hsc)
            · have hsc : 0 < (segRun evs).1.speechCount := by
                simpa [segFires] using hf
              exact List.mem_iff_getElem?.mp ((seg_speech_inv evs h0).mp hsc)
          have hjlen : jj < evs.length := (List.getElem?_eq_some.mp hjj).1
          rcases e with sp | _
          · cases sp with
            | true => simp [segFires] at hf
            | false =>
                have hfc : 10 < (segRun evs).1.silence + 1
                    ∧ 0 < (segRun evs).1.speechCount := by
                  have hfc' := hf
                  simp only [segFires, Bool.and_eq_true, decide_eq_true_eq] at hfc'
                  exact hfc'
                have htrail : 10 ≤ trailingSilence evs := by
                  have := seg_silence_inv evs h0
                  omega
                refine ⟨jj, evs.length, hjlen, ?_, Or.inr fun m hm => ?_⟩
                · rw [List.getElem?_append_left hjlen]
                  exact hjj
                · obtain ⟨hm1, hm2⟩ := Finset.mem_Icc.mp hm
                  rcases Nat.lt_or_ge m evs.length with hmlt | hmge
                  · rw [List.getElem?_append_left hmlt]
                    exact trailing_suffix_silence evs 10 htrail m (by omega) hmlt
                  · have hmeq : m = evs.length := by omega
                    rw [hmeq]
                    exact List.getElem?_concat_length evs (VEv.frame false)
          · refine ⟨jj, evs.length, hjlen, ?_, Or.inl ?_⟩
            · rw [List.getElem?_append_left hjlen]
              exact hjj
            · exact List.getElem?_concat_length evs VEv.endSig
        · rw [if_neg hf, h0] at h
          exact absurd h (by decide)
      · exact termRunAt_append 10 evs e (ih hpos)

/-- A terminated run with the eleven-frame silence window forces a
finalized utterance. -/
theorem termRun_segRun_pos (evs : List VEv) (h : TermRunAt 10 evs) :
    0 < (segRun evs).2 := by
  induction evs using List.reverseRecOn with
  | nil =>
      obtain ⟨j, k, _, hj, _⟩ := h
      simp at hj
  | append_singleton evs e ih =>
      obtain ⟨j, k, hjk, hj, hterm⟩ := h
      have hk1 : k < evs.length + 1 := by
        rcases hterm with hend | hwin
        · have := (List.getElem?_eq_some.mp hend).1
          simpa using this
        · have hkk := hwin k (Finset.mem_Icc.mpr ⟨Nat.sub_le _ _, le_refl _⟩)
          have := (List.getElem?_eq_some.mp hkk).1
          simpa using this
      rcases Nat.lt_or_ge k evs.length with hk | hk
      · have hj' : evs[j]? = some (VEv.frame true) := by
          have hj2 := hj
          rw [List.getElem?_append_left (lt_trans hjk hk)] at hj2
          exact hj2
        have hrun : TermRunAt 10 evs := by
          refine ⟨j, k, hjk, hj', ?_⟩
          rcases hterm with hend | hwin
          · refine Or.inl ?_
            rw [List.getElem?_append_left hk] at hend
            exact hend
          · refine Or.inr fun m hm => ?_
            have hmk : m ≤ k := (Finset.mem_Icc.mp hm).2
            have hw := hwin m hm
            rw [List.getElem?_append_left (lt_of_le_of_lt hmk hk)] at hw
            exact hw
        exact lt_of_lt_of_le (ih hrun) (segRun_snd_mono evs e)
      · have hkeq : k = evs.length := by omega
        rcases Nat.eq_zero_or_pos (segRun evs).2 with h0 | hpos
        · have hjlen : j < evs.length := by omega
          have hj' : evs[j]? = some (VEv.frame true) := by
            have hj2 := hj
            rw [List.getElem?_append_left hjlen] at hj2
            exact hj2
          have hsc : 0 < (segRun evs).1.speechCount :=
            (seg_speech_inv evs h0).mpr (List.mem_iff_getElem?.mpr ⟨j, hj'⟩)
          rcases hterm with hend | hwin
          · have he : e = VEv.endSig := by
              rw [hkeq, List.getElem?_concat_length] at hend
              injection hend
            rw [segRun_append]
            unfold segStep
            rw [he]
            have hfire : segFires (segRun evs).1 VEv.endSig = true := by
              simp [segFires, hsc]
            simp [hfire]
          · have he : e = VEv.frame false := by
              have hkk := hwin k (Finset.mem_Icc.mpr ⟨Nat.sub_le _ _, le_refl _⟩)
              rw [hkeq, List.getElem?_concat_length] at hkk
              injection hkk
            by_cases hjwin : k - 10 ≤ j
            · have hjm := hwin j (Finset.mem_Icc.mpr ⟨hjwin, le_of_lt hjk⟩)
              rw [hj] at hjm
              exact absurd hjm (by simp)
            · have hlen10 : 10 ≤ evs.length := by omega
              have htrail : 10 ≤ trailingSilence evs := by
                refine suffix_silence_trailing evs 10 hlen10 fun i hle hlt => ?_
                have hi := hwin i (Finset.mem_Icc.mpr ⟨by omega, by omega⟩)
                rwa [List.getElem?_append_left hlt] at hi
              have hsil : 10 ≤ (segRun evs).1.silence := by
                rw [seg_silence_inv evs h0]
                exact htrail
              rw [segRun_append]
              unfold segStep
              rw [he]
              have hfire : segFires (segRun evs).1 (VEv.frame false) = true := by
                simp only [segFires, Bool.and_eq_true, decide_eq_true_eq]
                exact ⟨by omega, hsc⟩
              simp [hfire]
        · exact lt_of_lt_of_le hpos (segRun_snd_mono evs e)

/-- C7, counterexample: a single speech frame followed by exactly ten
consecutive silence frames satisfies the claim&apos;s terminator condition
(a non-empty speech run terminated by at least ten consecutive silence
frames) yet the segmenter emits no utterance, because the code requires
the silence counter to exceed ten, i.e. eleven consecutive silence
frames. -/
theorem C7_threshold_counterexample :
    (segRun (VEv.frame true :: List.replicate 10 (VEv.frame false))).2 = 0
    ∧ TermRunAt 9 (VEv.frame true :: List.replicate 10 (VEv.frame false)) :=
  ⟨by decide, ⟨0, 10, by decide, by decide, Or.inr (by decide)⟩⟩

/-- C7, amended: for every sequence of classified frames and end signals
fed to the segmenter for one speaker, at least one utterance is emitted
iff some speech frame is followed by an explicit end signal or by a
position closing a window of eleven consecutive silence frames — more
than ten, not at least ten; moreover every finalization resets the
speech accumulator and the silence counter, and a sequence without
speech frames emits nothing. -/
theorem C7_amended :
    (∀ evs : List VEv, 0 < (segRun evs).2 ↔ TermRunAt 10 evs)
    ∧ (∀ (st : SegState) (e : VEv), segFires st e = true → segNext st e = ⟨0, 0⟩)
    ∧ (∀ evs : List VEv, VEv.frame true ∉ evs → (segRun evs).2 = 0) := by
  have hiff : ∀ evs : List VEv, 0 < (segRun evs).2 ↔ TermRunAt 10 evs :=
    fun evs => ⟨segRun_pos_termRun evs, termRun_segRun_pos evs⟩
  refine ⟨hiff, ?_, ?_⟩
  · intro st e hf
    rcases e with sp | _
    · cases sp with
      | true => simp [segFires] at hf
      | false =>
          simp only [segFires, Bool.and_eq_true, decide_eq_true_eq] at hf
          simp [segNext, hf.1, hf.2]
    · rfl
  · intro evs hnot
    by_contra hne
    obtain ⟨j, _, _, hj, _⟩ := (hiff evs).mp (Nat.pos_of_ne_zero hne)
    exact hnot (List.mem_iff_getElem?.mpr ⟨j, hj⟩)

/-- Witness for C7_amended: one speech frame and eleven silence frames
do emit an utterance. -/
theorem C7_amended_witness :
    0 < (segRun (VEv.frame true :: List.replicate 11 (VEv.frame false))).2 :=
  (C7_amended.1 (VEv.frame true :: List.replicate 11 (VEv.frame false))).mpr
    ⟨0, 11, by decide, by decide, Or.inr (by decide)⟩
